import Mathlib

/-!
Shallow embedding of `src/wine_ratings.py`.

A transcript is modelled as the list of its lines, each line a `List Char`
(what `f.readlines()` yields, up to the trailing newline that `strip()`
removes anyway).  Python's `str.strip`, `str.lower` and the regular
expressions of the source are modelled character by character; `\d` and
`\s` are modelled over their ASCII ranges.  A photo file's contents are a
`List Nat` of byte values, and the export directory is a partial map from
filename to file bytes (`none` models a file that does not exist).
-/

/-- ASCII whitespace, as removed by Python `str.strip()` and matched by `\s`. -/
def pyIsSpace (c : Char) : Bool :=
  c == ' ' || c == '\t' || c == '\n' || c == '\r' || c == '\x0b' || c == '\x0c'

/-- Python `str.strip()`: drop whitespace from both ends. -/
def pyStrip (l : List Char) : List Char :=
  ((l.dropWhile pyIsSpace).reverse.dropWhile pyIsSpace).reverse

/-- `next_line.split(']')[-1]` (source line 25): the part of the line after the
last `]`, or the whole line when no `]` occurs. -/
def afterLastBracket (l : List Char) : List Char :=
  (l.reverse.takeWhile (fun c => c != ']')).reverse

/-- `re.search(r'(\d+)', s)` (source line 25): the first maximal contiguous run
of decimal digits anywhere in `s`, if any. -/
def firstDigitRun : List Char → Option (List Char)
  | [] => none
  | c :: cs => if c.isDigit then some (c :: cs.takeWhile Char.isDigit) else firstDigitRun cs

/-- `int(...)` applied to a run of decimal digits (source line 27). -/
def digitsToNat (ds : List Char) : Nat :=
  ds.foldl (fun acc c => 10 * acc + (c.toNat - 48)) 0

/-- `re.sub(r'^\d+\s*', '', s)` (source line 31): remove one leading digit run
together with the whitespace immediately following it; if the string does not
start with a digit nothing is removed. -/
def stripLeadingDigits : List Char → List Char
  | [] => []
  | c :: cs => if c.isDigit then (cs.dropWhile Char.isDigit).dropWhile pyIsSpace else c :: cs

/-- The characters of `cs` strictly before its first `>`, or `none` when `cs`
contains no `>`. -/
def takeBeforeGt : List Char → Option (List Char)
  | [] => none
  | c :: cs => if c == '>' then some [] else (takeBeforeGt cs).map (fun t => c :: t)

/-- The lazy capture `(.+?)>` of the attachment regex: at least one character,
then everything up to the first `>` after that character. -/
def captureAfter : List Char → Option (List Char)
  | [] => none
  | c :: cs => (takeBeforeGt cs).map (fun t => c :: t)

/-- `re.search(r'<attached: (.+?)>', line)` (source line 18): leftmost position
where the literal `<attached: ` occurs and the lazy capture can be completed;
on failure at a position the scan advances one character. -/
def findAttachment : List Char → Option (List Char)
  | [] => none
  | c :: cs =>
    if List.isPrefixOf ("<attached: ".toList) (c :: cs) then
      match captureAfter ((c :: cs).drop 11) with
      | some cap => some cap
      | none => findAttachment cs
    else findAttachment cs

/-- One parsed rating entry, the dict appended at source lines 32-36. -/
structure Wine where
  photo : List Char
  rating : Nat
  comment : List Char
deriving DecidableEq, Repr

/-- Python's substring operator `needle in hay`. -/
def pyIn (needle : List Char) : List Char → Bool
  | [] => needle.isEmpty
  | c :: cs => List.isPrefixOf needle (c :: cs) || pyIn needle cs

/-- Source line 17: `'<attached:' in line and '.jpg' in line.lower()`.  Note
that the `.jpg` test is applied to the whole (lowercased) line, not to the
extracted attachment filename. -/
def attachTest (line : List Char) : Bool :=
  pyIn "<attached:".toList line && pyIn ".jpg".toList (line.map Char.toLower)

/-- The body of one iteration of the scanning loop (source lines 15-36) for a
line that has a following line: the record produced from `rawLine` paired with
the line after it, if any.  Both lines are `strip()`ped as in the source. -/
def parseRecord (rawLine rawNext : List Char) : Option Wine :=
  if attachTest (pyStrip rawLine) then
    match findAttachment (pyStrip rawLine) with
    | some photo =>
      match firstDigitRun (afterLastBracket (pyStrip rawNext)) with
      | some ds =>
        some { photo := photo,
               rating := if 10 < digitsToNat ds then 10 else digitsToNat ds,
               comment := pyStrip (stripLeadingDigits (afterLastBracket (pyStrip rawNext))) }
      | none => none
    | none => none
  else none

/-- `parse_chat` (source lines 7-39).  The cursor advances by one line per
iteration, so the line following an attachment is itself re-scanned; a final
line has no following line and can produce nothing. -/
def parse_chat : List (List Char) → List Wine
  | [] => []
  | [_] => []
  | l :: nl :: rest => (parseRecord l nl).toList ++ parse_chat (nl :: rest)

/-- The base64 alphabet used by `base64.b64encode`. -/
def b64chars : List Char :=
  "ABCDEFGHIJKLMNOPQRSTUVWXYZabcdefghijklmnopqrstuvwxyz0123456789+/".toList

/-- The base64 character for a 6-bit value. -/
def b64char (n : Nat) : Char := b64chars.getD n 'A'

/-- The 6-bit value of a base64 character. -/
def b64index (c : Char) : Nat := b64chars.indexOf c

/-- Standard base64 of a byte sequence, three bytes to four characters with
`=` padding, as computed by Python's `base64.b64encode`. -/
def b64encode : List Nat → List Char
  | [] => []
  | [a] => [b64char (a / 4), b64char (a % 4 * 16), '=', '=']
  | [a, b] => [b64char (a / 4), b64char (a % 4 * 16 + b / 16), b64char (b % 16 * 4), '=']
  | a :: b :: c :: rest =>
    b64char (a / 4) :: b64char (a % 4 * 16 + b / 16) ::
      b64char (b % 16 * 4 + c / 64) :: b64char (c % 64) :: b64encode rest

/-- `image_to_base64` (source lines 41-44): the file's bytes, base64-encoded
as text. -/
def image_to_base64 (bytes : List Nat) : String := String.mk (b64encode bytes)

/-- Regroup a sequence of 6-bit values into bytes: four sextets to three
bytes, with a three- or two-sextet tail yielding two or one bytes. -/
def sextetsToBytes : List Nat → List Nat
  | a :: b :: c :: d :: rest =>
    (a * 4 + b / 16) :: (b % 16 * 16 + c / 4) :: (c % 4 * 64 + d) :: sextetsToBytes rest
  | [a, b, c] => [a * 4 + b / 16, b % 16 * 16 + c / 4]
  | [a, b] => [a * 4 + b / 16]
  | _ => []

/-- Standard base64 decoding: drop the `=` padding, map each character to its
6-bit value, and regroup the sextets into bytes. -/
def b64decode (s : String) : List Nat :=
  sextetsToBytes ((s.toList.filter (fun c => c != '=')).map b64index)

/-- The export directory: a map from photo filename to the file's bytes,
`none` when the file does not exist.  Models `(export_dir / name).exists()`
together with reading the file. -/
def FS : Type := List Char → Option (List Nat)

/-- Insert a record into a list that is already sorted by rating descending,
after every element of strictly greater rating and before every element of
smaller or equal rating. -/
def insertWine (w : Wine) : List Wine → List Wine
  | [] => [w]
  | x :: xs => if w.rating < x.rating then x :: insertWine w xs else w :: x :: xs

/-- `sorted(wines, key=lambda x: x['rating'], reverse=True)` (source line 72):
Python's sort is stable, and with `reverse=True` records of equal rating keep
their original relative order; this insertion sort computes exactly that
stable descending ordering. -/
def sortWinesDesc : List Wine → List Wine
  | [] => []
  | x :: xs => insertWine x (sortWinesDesc xs)

/-- The fixed page head emitted at source lines 48-69: doctype, charset and
viewport meta tags, title, inline stylesheet, the sticky search input and the
opening of the `wines` container. -/
def htmlHead : String :=
  "<!DOCTYPE html>\n<html>\n<head>\n    <meta charset=\"UTF-8\">\n    <meta name=\"viewport\" content=\"width=device-width, initial-scale=1.0\">\n    <title>Wine Ratings</title>\n    <style>\n" ++
  "        body \x7b font-family: Arial, sans-serif; margin: 0; padding: 10px; background: #f5f5f5; \x7d\n" ++
  "        .search \x7b position: sticky; top: 0; background: white; padding: 10px; box-shadow: 0 2px 4px rgba(0,0,0,0.1); margin-bottom: 10px; z-index: 100; \x7d\n" ++
  "        input \x7b width: 100%; padding: 10px; font-size: 16px; border: 1px solid #ddd; border-radius: 4px; box-sizing: border-box; \x7d\n" ++
  "        .wine \x7b background: white; margin: 10px 0; padding: 10px; border-radius: 8px; box-shadow: 0 2px 4px rgba(0,0,0,0.1); \x7d\n" ++
  "        .wine img \x7b width: 100%; max-width: 400px; border-radius: 4px; \x7d\n" ++
  "        .rating \x7b font-size: 32px; font-weight: bold; color: #d4af37; margin: 10px 0; \x7d\n" ++
  "        .comment \x7b color: #666; font-style: italic; margin: 10px 0; font-size: 16px; \x7d\n" ++
  "    </style>\n</head>\n<body>\n    <div class=\"search\">\n        <input type=\"text\" id=\"searchInput\" placeholder=\"Cerca vino...\" onkeyup=\"filterWines()\">\n    </div>\n    <div id=\"wines\">\n"

/-- The markup block emitted per rendered record (source lines 80-86): the
lowercased comment as the `data-search` attribute, the image as a
`data:image/jpeg;base64,` URI, the rating as `rating/10`, and the comment. -/
def wineDiv (w : Wine) (img : String) : String :=
  "\n        <div class=\"wine\" data-search=\"" ++ String.mk (w.comment.map Char.toLower) ++
  "\">\n            <img src=\"data:image/jpeg;base64," ++ img ++
  "\">\n            <div class=\"rating\">" ++ toString w.rating ++
  "/10</div>\n            <div class=\"comment\">" ++ String.mk w.comment ++
  "</div>\n        </div>\n"

/-- The fixed page tail emitted at source lines 88-102: closing the `wines`
container and the inline script implementing the live case-insensitive
substring filter. -/
def htmlTail : String :=
  "\n    </div>\n    <script>\n        function filterWines() \x7b\n            const input = document.getElementById(\x27searchInput\x27).value.toLowerCase();\n            const wines = document.querySelectorAll(\x27.wine\x27);\n            wines.forEach(wine => \x7b\n                const searchText = wine.getAttribute(\x27data-search\x27);\n                wine.style.display = searchText.includes(input) ? \x27block\x27 : \x27none\x27;\n            \x7d);\n        \x7d\n    </script>\n</body>\n</html>\n"

/-- The rendered blocks, in order: the sorted records, each contributing one
`wineDiv` when its photo file exists and nothing when it does not (source
lines 74-86). -/
def renderBlocks (wines : List Wine) (fs : FS) : List String :=
  (sortWinesDesc wines).filterMap
    (fun w => (fs w.photo).map (fun bytes => wineDiv w (image_to_base64 bytes)))

/-- The sorted records whose photo file exists: exactly the records that
contribute a block to the rendered document, in rendering order. -/
def renderedWines (wines : List Wine) (fs : FS) : List Wine :=
  (sortWinesDesc wines).filter (fun w => (fs w.photo).isSome)

/-- `generate_html` (source lines 46-103): the fixed head, one block per
surviving record in sorted order, and the fixed tail. -/
def generate_html (wines : List Wine) (fs : FS) : String :=
  htmlHead ++ String.join (renderBlocks wines fs) ++ htmlTail

theorem parse_chat_nil : parse_chat [] = [] := rfl

theorem parse_chat_single (l : List Char) : parse_chat [l] = [] := rfl

theorem parse_chat_cons2 (l nl : List Char) (rest : List (List Char)) :
    parse_chat (l :: nl :: rest) = (parseRecord l nl).toList ++ parse_chat (nl :: rest) := rfl

/-- Every parsed record comes from some line paired with the line immediately
after it. -/
theorem mem_parse_chat {xs : List (List Char)} {w : Wine} (hw : w ∈ parse_chat xs) :
    ∃ pre l nl post, xs = pre ++ l :: nl :: post ∧ parseRecord l nl = some w := by
  induction xs with
  | nil => simp [parse_chat] at hw
  | cons a rest ih =>
    cases rest with
    | nil => simp [parse_chat] at hw
    | cons b rest2 =>
      rw [parse_chat_cons2] at hw
      rcases List.mem_append.mp hw with h | h
      · refine ⟨[], a, b, rest2, rfl, ?_⟩
        cases hpr : parseRecord a b with
        | none => rw [hpr] at h; simp at h
        | some w2 => rw [hpr] at h; simp at h; subst h; rfl
      · obtain ⟨pre, l, nl, post, heq, hpr⟩ := ih h
        exact ⟨a :: pre, l, nl, post, by rw [heq, List.cons_append], hpr⟩

/-- Anatomy of a successful `parseRecord`. -/
theorem parseRecord_eq_some {l nl : List Char} {w : Wine} (h : parseRecord l nl = some w) :
    attachTest (pyStrip l) = true ∧
    findAttachment (pyStrip l) = some w.photo ∧
    ∃ ds, firstDigitRun (afterLastBracket (pyStrip nl)) = some ds ∧
      w.rating = (if 10 < digitsToNat ds then 10 else digitsToNat ds) ∧
      w.comment = pyStrip (stripLeadingDigits (afterLastBracket (pyStrip nl))) := by
  cases hat : attachTest (pyStrip l) with
  | false => simp [parseRecord, hat] at h
  | true =>
    cases hfa : findAttachment (pyStrip l) with
    | none => simp [parseRecord, hat, hfa] at h
    | some photo =>
      cases hds : firstDigitRun (afterLastBracket (pyStrip nl)) with
      | none => simp [parseRecord, hat, hfa, hds] at h
      | some ds =>
        simp only [parseRecord, hat, hfa, hds, if_true] at h
        injection h with h
        subst h
        exact ⟨rfl, rfl, ds, rfl, rfl, rfl⟩

theorem mem_insertWine {w y : Wine} : ∀ {l : List Wine},
    y ∈ insertWine w l ↔ y = w ∨ y ∈ l := by
  intro l
  induction l with
  | nil => simp [insertWine]
  | cons x xs ih =>
    simp only [insertWine]
    split
    · rw [List.mem_cons, ih, List.mem_cons]
      tauto
    · simp [List.mem_cons]

theorem pairwise_insertWine {w : Wine} {l : List Wine}
    (h : l.Pairwise (fun a b => b.rating ≤ a.rating)) :
    (insertWine w l).Pairwise (fun a b => b.rating ≤ a.rating) := by
  induction l with
  | nil => simp [insertWine]
  | cons x xs ih =>
    rw [List.pairwise_cons] at h
    obtain ⟨hx, hxs⟩ := h
    simp only [insertWine]
    split
    · rename_i hlt
      rw [List.pairwise_cons]
      refine ⟨fun y hy => ?_, ih hxs⟩
      rcases mem_insertWine.mp hy with rfl | hy2
      · omega
      · exact hx y hy2
    · rename_i hge
      rw [List.pairwise_cons]
      refine ⟨fun y hy => ?_, List.pairwise_cons.mpr ⟨hx, hxs⟩⟩
      rcases List.mem_cons.mp hy with rfl | hy2
      · omega
      · have := hx y hy2; omega

theorem sortWinesDesc_pairwise (l : List Wine) :
    (sortWinesDesc l).Pairwise (fun a b => b.rating ≤ a.rating) := by
  induction l with
  | nil => simp [sortWinesDesc]
  | cons x xs ih => exact pairwise_insertWine ih

theorem mem_sortWinesDesc {w : Wine} : ∀ {l : List Wine},
    w ∈ sortWinesDesc l ↔ w ∈ l := by
  intro l
  induction l with
  | nil => simp [sortWinesDesc]
  | cons x xs ih => simp [sortWinesDesc, mem_insertWine, ih]

/-- Inserting a record only adds it in front of its own rating class: the
records of any fixed rating keep their relative order. -/
theorem filter_insertWine_rating (w : Wine) (r : Nat) : ∀ l : List Wine,
    (insertWine w l).filter (fun x => x.rating == r) =
      if w.rating = r then w :: l.filter (fun x => x.rating == r)
      else l.filter (fun x => x.rating == r) := by
  intro l
  induction l with
  | nil => by_cases hw : w.rating = r <;> simp [insertWine, hw]
  | cons x xs ih =>
    simp only [insertWine]
    by_cases hlt : w.rating < x.rating
    · rw [if_pos hlt, List.filter_cons, ih]
      by_cases hw : w.rating = r
      · have hx : ¬x.rating = r := by omega
        simp [hw, hx, List.filter_cons]
      · simp [hw, List.filter_cons]
    · rw [if_neg hlt, List.filter_cons]
      by_cases hw : w.rating = r <;> simp [hw, List.filter_cons]

/-- Stability of the sort: the subsequence of records with any fixed rating is
unchanged by sorting. -/
theorem filter_sortWinesDesc_rating (r : Nat) : ∀ l : List Wine,
    (sortWinesDesc l).filter (fun x => x.rating == r) =
      l.filter (fun x => x.rating == r) := by
  intro l
  induction l with
  | nil => rfl
  | cons x xs ih =>
    simp only [sortWinesDesc]
    rw [filter_insertWine_rating, ih]
    by_cases hx : x.rating = r <;> simp [hx, List.filter_cons]

theorem filter_and_filter {α : Type} (p q : α → Bool) : ∀ l : List α,
    (l.filter p).filter q = l.filter (fun a => p a && q a) := by
  intro l
  induction l with
  | nil => rfl
  | cons a t ih => cases hp : p a <;> cases hq : q a <;> simp [List.filter_cons, hp, hq, ih]

/-- A list sorted by rating descending is determined by its rating classes:
two such lists with the same subsequence at every rating are equal. -/
theorem sorted_stable_unique : ∀ l1 l2 : List Wine,
    l1.Pairwise (fun a b => b.rating ≤ a.rating) →
    l2.Pairwise (fun a b => b.rating ≤ a.rating) →
    (∀ r, l1.filter (fun x => x.rating == r) = l2.filter (fun x => x.rating == r)) →
    l1 = l2 := by
  intro l1
  induction l1 with
  | nil =>
    intro l2 _ _ hf
    cases l2 with
    | nil => rfl
    | cons b t2 =>
      exfalso
      have h := hf b.rating
      simp [List.filter_cons] at h
  | cons a t1 ih =>
    intro l2 h1 h2 hf
    cases l2 with
    | nil =>
      exfalso
      have h := hf a.rating
      simp [List.filter_cons] at h
    | cons b t2 =>
      rw [List.pairwise_cons] at h1 h2
      obtain ⟨ha, ht1⟩ := h1
      obtain ⟨hb, ht2⟩ := h2
      have hab : a = b := by
        by_cases hr : b.rating = a.rating
        · have h := hf a.rating
          simp [List.filter_cons, hr] at h
          exact h.1
        · exfalso
          have h := hf a.rating
          simp [List.filter_cons, hr] at h
          have hmem : a ∈ t2 := by
            have h5 : a ∈ List.filter (fun x => x.rating == a.rating) t2 := by
              rw [← h]; simp
            exact (List.mem_filter.mp h5).1
          have h3 : a.rating ≤ b.rating := hb a hmem
          have hr2 : ¬a.rating = b.rating := fun hh => hr hh.symm
          have h' := hf b.rating
          simp [List.filter_cons, hr2] at h'
          have hmem' : b ∈ t1 := by
            have h6 : b ∈ List.filter (fun x => x.rating == b.rating) t1 := by
              rw [h']; simp
            exact (List.mem_filter.mp h6).1
          have h4 : b.rating ≤ a.rating := ha b hmem'
          omega
      subst hab
      have ht : ∀ r, t1.filter (fun x => x.rating == r) =
          t2.filter (fun x => x.rating == r) := by
        intro r
        have h := hf r
        by_cases hr : a.rating = r
        · simp [List.filter_cons, hr] at h
          exact h
        · simpa [List.filter_cons, hr] using h
      exact congrArg (List.cons a) (ih t2 ht1 ht2 ht)

/-- The blocks are the per-record markup of exactly the sorted records whose
photo exists. -/
theorem renderBlocks_eq (wines : List Wine) (fs : FS) :
    renderBlocks wines fs = (renderedWines wines fs).map
      (fun w => wineDiv w (image_to_base64 ((fs w.photo).getD []))) := by
  unfold renderBlocks renderedWines
  induction sortWinesDesc wines with
  | nil => rfl
  | cons a t ih =>
    cases hfa : fs a.photo with
    | none => simp [List.filterMap_cons, List.filter_cons, hfa, ih]
    | some bytes => simp [List.filterMap_cons, List.filter_cons, hfa, ih]

theorem renderedWines_pairwise (wines : List Wine) (fs : FS) :
    (renderedWines wines fs).Pairwise (fun a b => b.rating ≤ a.rating) :=
  List.Pairwise.sublist (List.filter_sublist _) (sortWinesDesc_pairwise wines)

/-- The rating class of the rendered records is the original-order filter of
the input records that both have that rating and have an existing photo. -/
theorem renderedWines_filter_rating (wines : List Wine) (fs : FS) (r : Nat) :
    (renderedWines wines fs).filter (fun w => w.rating == r) =
      wines.filter (fun w => (w.rating == r) && (fs w.photo).isSome) := by
  unfold renderedWines
  rw [filter_and_filter]
  have hsw : (sortWinesDesc wines).filter (fun a => (fs a.photo).isSome && (a.rating == r)) =
      ((sortWinesDesc wines).filter (fun a => a.rating == r)).filter
        (fun a => (fs a.photo).isSome) := by
    rw [filter_and_filter]
    exact List.filter_congr (fun x _ => Bool.and_comm _ _)
  rw [hsw, filter_sortWinesDesc_rating, filter_and_filter]

/-- C1: every record produced by `parse_chat` has rating at most 10; its
rating equals the value of the first decimal-digit run in the portion of the
following line after the last `]` whenever that value is at most 10, and is
exactly 10 whenever that value exceeds 10. -/
theorem parse_rating_clamped (lines : List (List Char)) (w : Wine)
    (hw : w ∈ parse_chat lines) :
    w.rating ≤ 10 ∧
    ∃ pre l nl post ds, lines = pre ++ l :: nl :: post ∧
      firstDigitRun (afterLastBracket (pyStrip nl)) = some ds ∧
      (digitsToNat ds ≤ 10 → w.rating = digitsToNat ds) ∧
      (10 < digitsToNat ds → w.rating = 10) := by
  obtain ⟨pre, l, nl, post, heq, hpr⟩ := mem_parse_chat hw
  obtain ⟨-, -, ds, hds, hrat, -⟩ := parseRecord_eq_some hpr
  constructor
  · rw [hrat]; split <;> omega
  · refine ⟨pre, l, nl, post, ds, heq, hds, ?_, ?_⟩
    · intro hle; rw [hrat, if_neg (by omega)]
    · intro hgt; rw [hrat, if_pos hgt]

/-- Witness for C1 at a concrete transcript. -/
theorem parse_rating_clamped_witness :
    (⟨"a.jpg".toList, 8, "nice".toList⟩ : Wine) ∈
      parse_chat ["<attached: a.jpg>".toList, "8 nice".toList] ∧
    ((⟨"a.jpg".toList, 8, "nice".toList⟩ : Wine).rating ≤ 10 ∧
      ∃ pre l nl post ds,
        ["<attached: a.jpg>".toList, "8 nice".toList] = pre ++ l :: nl :: post ∧
        firstDigitRun (afterLastBracket (pyStrip nl)) = some ds ∧
        (digitsToNat ds ≤ 10 →
          (⟨"a.jpg".toList, 8, "nice".toList⟩ : Wine).rating = digitsToNat ds) ∧
        (10 < digitsToNat ds →
          (⟨"a.jpg".toList, 8, "nice".toList⟩ : Wine).rating = 10)) :=
  ⟨by decide, parse_rating_clamped ["<attached: a.jpg>".toList, "8 nice".toList]
    ⟨"a.jpg".toList, 8, "nice".toList⟩ (by decide)⟩

/-- C2 counterexample: a line whose attachment-marker content `a.png` does not
contain `.jpg` nevertheless produces a record, because the source tests `.jpg`
against the whole line, in which it occurs outside the marker. -/
theorem attachment_marker_content_counterexample :
    parse_chat ["<attached: a.png> wine.jpg".toList, "7 ok".toList] =
      [⟨"a.png".toList, 7, "ok".toList⟩] ∧
    findAttachment (pyStrip "<attached: a.png> wine.jpg".toList) = some "a.png".toList ∧
    pyIn ".jpg".toList ("a.png".toList.map Char.toLower) = false := by decide

/-- C2 amended: a record is produced for a line only if the line contains
`<attached:`, the whole line lowercased contains `.jpg` (not necessarily the
marker content), and the marker regex extracts the filename; a line failing
the whole-line test is skipped and yields no record. -/
theorem parse_attachment_line_test :
    (∀ lines (w : Wine), w ∈ parse_chat lines →
      ∃ pre l nl post, lines = pre ++ l :: nl :: post ∧
        attachTest (pyStrip l) = true ∧ findAttachment (pyStrip l) = some w.photo) ∧
    (∀ l nl, attachTest (pyStrip l) = false → parseRecord l nl = none) := by
  constructor
  · intro lines w hw
    obtain ⟨pre, l, nl, post, heq, hpr⟩ := mem_parse_chat hw
    obtain ⟨hat, hfa, -⟩ := parseRecord_eq_some hpr
    exact ⟨pre, l, nl, post, heq, hat, hfa⟩
  · intro l nl hat
    simp [parseRecord, hat]

/-- Witness for the amended C2 at concrete lines. -/
theorem parse_attachment_line_test_witness :
    ((⟨"a.jpg".toList, 8, "nice".toList⟩ : Wine) ∈
        parse_chat ["<attached: a.jpg>".toList, "8 nice".toList] ∧
      ∃ pre l nl post,
        ["<attached: a.jpg>".toList, "8 nice".toList] = pre ++ l :: nl :: post ∧
        attachTest (pyStrip l) = true ∧
        findAttachment (pyStrip l) = some (⟨"a.jpg".toList, 8, "nice".toList⟩ : Wine).photo) ∧
    (attachTest (pyStrip "hello".toList) = false ∧
      parseRecord "hello".toList "x".toList = none) :=
  ⟨⟨by decide, parse_attachment_line_test.1 ["<attached: a.jpg>".toList, "8 nice".toList]
      ⟨"a.jpg".toList, 8, "nice".toList⟩ (by decide)⟩,
   ⟨by decide, parse_attachment_line_test.2 "hello".toList "x".toList (by decide)⟩⟩

/-- C3: every produced record's comment is the suffix of the (stripped) rating
line after the last `]`, with one leading digit run and the whitespace after
it removed when the suffix starts with a digit, then trimmed; when the suffix
does not start with a digit nothing is removed (the rating digits stay in the
comment); a suffix of nothing but digits gives the empty comment. -/
theorem parse_comment_strip (lines : List (List Char)) (w : Wine)
    (hw : w ∈ parse_chat lines) :
    ∃ pre l nl post, lines = pre ++ l :: nl :: post ∧
      w.comment = pyStrip (stripLeadingDigits (afterLastBracket (pyStrip nl))) ∧
      (∀ c cs, afterLastBracket (pyStrip nl) = c :: cs → c.isDigit = true →
        w.comment = pyStrip ((cs.dropWhile Char.isDigit).dropWhile pyIsSpace)) ∧
      (∀ c cs, afterLastBracket (pyStrip nl) = c :: cs → c.isDigit = false →
        w.comment = pyStrip (c :: cs)) ∧
      ((afterLastBracket (pyStrip nl)).all Char.isDigit = true → w.comment = []) := by
  obtain ⟨pre, l, nl, post, heq, hpr⟩ := mem_parse_chat hw
  obtain ⟨-, -, ds, hds, -, hcom⟩ := parseRecord_eq_some hpr
  refine ⟨pre, l, nl, post, heq, hcom, ?_, ?_, ?_⟩
  · intro c cs hsuf hdig
    rw [hcom, hsuf]
    simp [stripLeadingDigits, hdig]
  · intro c cs hsuf hdig
    rw [hcom, hsuf]
    simp [stripLeadingDigits, hdig]
  · intro hall
    rw [hcom]
    cases hsuf : afterLastBracket (pyStrip nl) with
    | nil => rfl
    | cons c cs =>
      rw [hsuf] at hall
      simp only [List.all_cons, Bool.and_eq_true] at hall
      obtain ⟨hc, hcs⟩ := hall
      have hnil : cs.dropWhile Char.isDigit = [] :=
        List.dropWhile_eq_nil_iff.mpr (fun x hx => by
          have := List.all_eq_true.mp hcs x hx
          exact this)
      simp [stripLeadingDigits, hc, hnil, pyStrip]

/-- Witness for C3 at a concrete transcript. -/
theorem parse_comment_strip_witness :
    (⟨"a.jpg".toList, 8, "nice".toList⟩ : Wine) ∈
      parse_chat ["<attached: a.jpg>".toList, "8 nice".toList] ∧
    ∃ pre l nl post,
      ["<attached: a.jpg>".toList, "8 nice".toList] = pre ++ l :: nl :: post ∧
      (⟨"a.jpg".toList, 8, "nice".toList⟩ : Wine).comment =
        pyStrip (stripLeadingDigits (afterLastBracket (pyStrip nl))) ∧
      (∀ c cs, afterLastBracket (pyStrip nl) = c :: cs → c.isDigit = true →
        (⟨"a.jpg".toList, 8, "nice".toList⟩ : Wine).comment =
          pyStrip ((cs.dropWhile Char.isDigit).dropWhile pyIsSpace)) ∧
      (∀ c cs, afterLastBracket (pyStrip nl) = c :: cs → c.isDigit = false →
        (⟨"a.jpg".toList, 8, "nice".toList⟩ : Wine).comment = pyStrip (c :: cs)) ∧
      ((afterLastBracket (pyStrip nl)).all Char.isDigit = true →
        (⟨"a.jpg".toList, 8, "nice".toList⟩ : Wine).comment = []) :=
  ⟨by decide, parse_comment_strip ["<attached: a.jpg>".toList, "8 nice".toList]
    ⟨"a.jpg".toList, 8, "nice".toList⟩ (by decide)⟩

/-- C6: an attachment line whose following line has no decimal digit after the
last `]` produces no record, and parsing continues with the next line. -/
theorem parse_no_digit_run_dropped (l nl : List Char) (rest : List (List Char))
    (h : firstDigitRun (afterLastBracket (pyStrip nl)) = none) :
    parseRecord l nl = none ∧ parse_chat (l :: nl :: rest) = parse_chat (nl :: rest) := by
  have hpr : parseRecord l nl = none := by
    unfold parseRecord
    split
    · split
      · simp [h]
      · rfl
    · rfl
  exact ⟨hpr, by rw [parse_chat_cons2, hpr]; rfl⟩

/-- Witness for C6 at a concrete transcript. -/
theorem parse_no_digit_run_dropped_witness :
    firstDigitRun (afterLastBracket (pyStrip "no rating here".toList)) = none ∧
    (parseRecord "<attached: a.jpg>".toList "no rating here".toList = none ∧
      parse_chat ["<attached: a.jpg>".toList, "no rating here".toList] =
        parse_chat ["no rating here".toList]) :=
  ⟨by decide, parse_no_digit_run_dropped "<attached: a.jpg>".toList "no rating here".toList [] (by decide)⟩

/-- C8: the records of a transcript come exactly from the pairs of consecutive
lines, the first component drawn from all lines but the last; in particular a
transcript consisting of a single attachment line produces no record, and the
final line of any transcript never acts as an attachment line. -/
theorem parse_final_line_no_record :
    (∀ l, parse_chat [l] = []) ∧
    (∀ pre l, parse_chat (pre ++ [l]) =
      (pre.zip (pre.tail ++ [l])).filterMap (fun p => parseRecord p.1 p.2)) := by
  constructor
  · intro l; rfl
  · intro pre
    induction pre with
    | nil => intro l; rfl
    | cons a pre2 ih =>
      intro l
      cases pre2 with
      | nil =>
        cases hpr : parseRecord a l <;>
          simp [parse_chat_cons2, parse_chat_single, List.filterMap_cons, hpr]
      | cons b pre3 =>
        simp only [List.cons_append, List.tail_cons] at ih ⊢
        rw [parse_chat_cons2, ih, List.zip_cons_cons, List.filterMap_cons]
        cases hpr : parseRecord a b <;> simp [hpr]

/-- C9: every produced rating, read as an integer, lies in the range 0..10:
it is parsed from a run of decimal digits, so it is never negative, and the
clamp bounds it by 10. -/
theorem parse_rating_int_range (lines : List (List Char)) (w : Wine)
    (hw : w ∈ parse_chat lines) :
    0 ≤ (w.rating : Int) ∧ (w.rating : Int) ≤ 10 := by
  obtain ⟨pre, l, nl, post, heq, hpr⟩ := mem_parse_chat hw
  obtain ⟨-, -, ds, -, hrat, -⟩ := parseRecord_eq_some hpr
  have hle : w.rating ≤ 10 := by rw [hrat]; split <;> omega
  constructor
  · exact Int.natCast_nonneg _
  · exact_mod_cast hle

/-- Witness for C9 at a concrete transcript. -/
theorem parse_rating_int_range_witness :
    (⟨"a.jpg".toList, 8, "nice".toList⟩ : Wine) ∈
      parse_chat ["<attached: a.jpg>".toList, "8 nice".toList] ∧
    (0 ≤ ((⟨"a.jpg".toList, 8, "nice".toList⟩ : Wine).rating : Int) ∧
      ((⟨"a.jpg".toList, 8, "nice".toList⟩ : Wine).rating : Int) ≤ 10) :=
  ⟨by decide, parse_rating_int_range ["<attached: a.jpg>".toList, "8 nice".toList]
    ⟨"a.jpg".toList, 8, "nice".toList⟩ (by decide)⟩

/-- C4: the rendered document is the fixed head, then one block per surviving
record in rating-descending order, then the fixed tail; records of equal
rating keep their original parse order (the rating class of the rendered
sequence equals the original-order filter of the input). -/
theorem generate_html_sorted_desc_stable (wines : List Wine) (fs : FS) :
    generate_html wines fs =
      htmlHead ++ String.join ((renderedWines wines fs).map
        (fun w => wineDiv w (image_to_base64 ((fs w.photo).getD [])))) ++ htmlTail ∧
    (renderedWines wines fs).Pairwise (fun a b => b.rating ≤ a.rating) ∧
    (∀ r, (renderedWines wines fs).filter (fun w => w.rating == r) =
      wines.filter (fun w => (w.rating == r) && (fs w.photo).isSome)) :=
  ⟨by rw [generate_html, renderBlocks_eq],
   renderedWines_pairwise wines fs,
   renderedWines_filter_rating wines fs⟩

/-- C5: a record whose photo file does not exist contributes nothing to the
rendered document: the output is identical to the output for the record
sequence with that record deleted, so the other records' blocks and their
order are unchanged. -/
theorem generate_html_missing_photo (fs : FS) (w : Wine) (l1 l2 : List Wine)
    (h : fs w.photo = none) :
    generate_html (l1 ++ w :: l2) fs = generate_html (l1 ++ l2) fs := by
  have hrw : renderedWines (l1 ++ w :: l2) fs = renderedWines (l1 ++ l2) fs := by
    apply sorted_stable_unique _ _ (renderedWines_pairwise _ _) (renderedWines_pairwise _ _)
    intro r
    rw [renderedWines_filter_rating, renderedWines_filter_rating,
      List.filter_append, List.filter_append, List.filter_cons]
    simp [h]
  rw [generate_html, generate_html, renderBlocks_eq, renderBlocks_eq, hrw]

/-- Witness for C5 at a concrete record list and directory. -/
theorem generate_html_missing_photo_witness :
    (fun n => if n = "a.jpg".toList then some [0, 1, 2] else none : FS)
        (⟨"b.jpg".toList, 5, "x".toList⟩ : Wine).photo = none ∧
    generate_html ([⟨"a.jpg".toList, 9, "y".toList⟩] ++
        (⟨"b.jpg".toList, 5, "x".toList⟩ : Wine) :: [])
      (fun n => if n = "a.jpg".toList then some [0, 1, 2] else none) =
    generate_html ([⟨"a.jpg".toList, 9, "y".toList⟩] ++ [])
      (fun n => if n = "a.jpg".toList then some [0, 1, 2] else none) :=
  ⟨by decide,
   generate_html_missing_photo
     (fun n => if n = "a.jpg".toList then some [0, 1, 2] else none)
     ⟨"b.jpg".toList, 5, "x".toList⟩ [⟨"a.jpg".toList, 9, "y".toList⟩] [] (by decide)⟩

set_option maxRecDepth 100000 in
/-- C10: with no records, or when every record's photo file is absent, the
rendered document is exactly the fixed page shell `htmlHead ++ htmlTail`
(doctype, charset and viewport meta tags, inline stylesheet, search input,
wines container and filter script); in general the output is always that
shell around a record-dependent middle, so the shell text never depends on
the records. -/
theorem generate_html_shell_fixed (fs : FS) :
    generate_html [] fs = htmlHead ++ htmlTail ∧
    (∀ wines, (∀ w ∈ wines, fs w.photo = none) →
      generate_html wines fs = htmlHead ++ htmlTail) ∧
    (∀ wines, ∃ mid, generate_html wines fs = htmlHead ++ mid ++ htmlTail) ∧
    pyIn "<!DOCTYPE html>".toList (htmlHead ++ htmlTail).toList = true ∧
    pyIn "<meta charset=\"UTF-8\">".toList (htmlHead ++ htmlTail).toList = true ∧
    pyIn "<meta name=\"viewport\"".toList (htmlHead ++ htmlTail).toList = true ∧
    pyIn "<style>".toList (htmlHead ++ htmlTail).toList = true ∧
    pyIn "<input type=\"text\" id=\"searchInput\"".toList (htmlHead ++ htmlTail).toList = true ∧
    pyIn "<div id=\"wines\">".toList (htmlHead ++ htmlTail).toList = true ∧
    pyIn "function filterWines()".toList (htmlHead ++ htmlTail).toList = true := by
  refine ⟨?_, ?_, fun wines => ⟨String.join (renderBlocks wines fs), rfl⟩, by decide⟩
  · rw [generate_html]
    rw [show renderBlocks [] fs = [] from rfl,
      show String.join [] = "" from rfl, String.append_empty]
  · intro wines hnone
    have hb : renderBlocks wines fs = [] := by
      rw [renderBlocks, List.filterMap_eq_nil_iff]
      intro a ha
      rw [hnone a (mem_sortWinesDesc.mp ha)]
      rfl
    rw [generate_html, hb, show String.join [] = "" from rfl, String.append_empty]

/-- Witness for C10 at a concrete directory and record list. -/
theorem generate_html_shell_fixed_witness :
    generate_html [] (fun _ => none) = htmlHead ++ htmlTail ∧
    ((∀ w ∈ [(⟨"b.jpg".toList, 5, "x".toList⟩ : Wine)], (fun _ => none : FS) w.photo = none) ∧
      generate_html [(⟨"b.jpg".toList, 5, "x".toList⟩ : Wine)] (fun _ => none) =
        htmlHead ++ htmlTail) :=
  ⟨(generate_html_shell_fixed (fun _ => none)).1,
   by decide,
   (generate_html_shell_fixed (fun _ => none)).2.1
     [⟨"b.jpg".toList, 5, "x".toList⟩] (by decide)⟩

theorem b64index_b64char : ∀ n, n < 64 → b64index (b64char n) = n := by decide

theorem b64char_ne_pad : ∀ n, n < 64 → (b64char n != '=') = true := by decide

/-- Decoding inverts encoding, chunk by chunk. -/
theorem b64_roundtrip_list : ∀ bs : List Nat, (∀ b ∈ bs, b < 256) →
    sextetsToBytes (((b64encode bs).filter (fun c => c != '=')).map b64index) = bs
  | [], _ => rfl
  | [a], h => by
    have ha : a < 256 := h a (by simp)
    have h1 : a / 4 < 64 := by omega
    have h2 : a % 4 * 16 < 64 := by omega
    simp only [b64encode, List.filter_cons, b64char_ne_pad _ h1, b64char_ne_pad _ h2,
      if_true, List.map_cons, b64index_b64char _ h1, b64index_b64char _ h2]
    simp [sextetsToBytes]
    omega
  | [a, b], h => by
    have ha : a < 256 := h a (by simp)
    have hb : b < 256 := h b (by simp)
    have h1 : a / 4 < 64 := by omega
    have h2 : a % 4 * 16 + b / 16 < 64 := by omega
    have h3 : b % 16 * 4 < 64 := by omega
    simp only [b64encode, List.filter_cons, b64char_ne_pad _ h1, b64char_ne_pad _ h2,
      b64char_ne_pad _ h3, if_true, List.map_cons,
      b64index_b64char _ h1, b64index_b64char _ h2, b64index_b64char _ h3]
    simp [sextetsToBytes]
    constructor <;> omega
  | a :: b :: c :: rest, h => by
    have ha : a < 256 := h a (by simp)
    have hb : b < 256 := h b (by simp)
    have hc : c < 256 := h c (by simp)
    have h1 : a / 4 < 64 := by omega
    have h2 : a % 4 * 16 + b / 16 < 64 := by omega
    have h3 : b % 16 * 4 + c / 64 < 64 := by omega
    have h4 : c % 64 < 64 := by omega
    have ih := b64_roundtrip_list rest (fun x hx => h x (by simp [hx]))
    simp only [b64encode, List.filter_cons, b64char_ne_pad _ h1, b64char_ne_pad _ h2,
      b64char_ne_pad _ h3, b64char_ne_pad _ h4, if_true, List.map_cons,
      b64index_b64char _ h1, b64index_b64char _ h2, b64index_b64char _ h3,
      b64index_b64char _ h4, sextetsToBytes, ih, List.cons.injEq]
    exact ⟨by omega, by omega, by omega, trivial⟩

/-- C7: base64-decoding the text produced by the asset encoder recovers
exactly the original bytes; this is the payload that `wineDiv` embeds after
`data:image/jpeg;base64,` in a rendered record's data URI. -/
theorem image_to_base64_roundtrip (bs : List Nat) (h : ∀ b ∈ bs, b < 256) :
    b64decode (image_to_base64 bs) = bs := by
  rw [b64decode, image_to_base64]
  exact b64_roundtrip_list bs h

/-- Witness for C7 on concrete bytes. -/
theorem image_to_base64_roundtrip_witness :
    (∀ b ∈ [77, 97, 110, 255, 0], b < 256) ∧
    b64decode (image_to_base64 [77, 97, 110, 255, 0]) = [77, 97, 110, 255, 0] :=
  ⟨by decide, image_to_base64_roundtrip [77, 97, 110, 255, 0] (by decide)⟩

